import Mathlib

/-!
Verification of the attention-based feature-refinement pipeline of
`detectron2/modeling/backbone/CIF_MultiHead.py`.

Tensors are modelled as a shape (list of dimension sizes, row-major) together
with a flat data function `ℕ → ℝ`; machine floats are modelled by exact reals.
Fallible tensor operations (shape checks performed by the numeric framework)
return `Except TErr Tensor`, with the error constructor recording the kind of
runtime error the framework raises (shape/dimension mismatch, wrong python
type, missing dictionary key).
-/

/-- Kinds of runtime errors relevant to the pipeline:
dimension/shape mismatches, applying a tensor operation to a non-tensor
python value, and a missing dictionary key. -/
inductive TErr where
  | shapeErr : TErr
  | typeErr : TErr
  | keyErr : TErr
deriving DecidableEq

/-- A tensor: a row-major shape and flat data.  Entries at flat indices
`≥ shape.prod` are junk and never observed by valid indexing. -/
structure Tensor where
  shape : List ℕ
  data : ℕ → ℝ

/-- Element of a rank-3 tensor at multi-index `(i, j, k)` (row-major). -/
def Tensor.g3 (t : Tensor) (i j k : ℕ) : ℝ :=
  match t.shape with
  | [_, b, c] => t.data ((i * b + j) * c + k)
  | _ => 0

/-- Element of a rank-4 tensor at multi-index `(i, j, k, l)` (row-major). -/
def Tensor.g4 (t : Tensor) (i j k l : ℕ) : ℝ :=
  match t.shape with
  | [_, b, c, d] => t.data (((i * b + j) * c + k) * d + l)
  | _ => 0

/-- `nn.Linear(inF, outF, bias=False)` applied to the last axis: requires the
last dimension to equal `inF`, otherwise raises a shape error.  The weight `W`
is indexed `W out in` as in PyTorch. -/
def linear (inF outF : ℕ) (W : ℕ → ℕ → ℝ) (t : Tensor) : Except TErr Tensor :=
  match t.shape.getLast? with
  | some d =>
      if d = inF then
        .ok ⟨t.shape.dropLast ++ [outF],
          fun m => ∑ k ∈ Finset.range inF, t.data (m / outF * inF + k) * W (m % outF) k⟩
      else .error .shapeErr
  | none => .error .shapeErr

/-- `.view(d0, -1, rest...)` / `.reshape(d0, -1, rest...)`: the `-1` dimension
is inferred from the element count.  PyTorch refuses the inference when the
product of the known dimensions is zero ("the unspecified dimension size -1
can be any value") or does not divide the element count.  Flat data is
unchanged (all call sites are contiguous in our materialized model). -/
def viewNeg1 (d0 : ℕ) (rest : List ℕ) (t : Tensor) : Except TErr Tensor :=
  if d0 * rest.prod ≠ 0 ∧ t.shape.prod % (d0 * rest.prod) = 0 then
    .ok ⟨d0 :: (t.shape.prod / (d0 * rest.prod)) :: rest, t.data⟩
  else .error .shapeErr

/-- `.reshape(s)` with fully explicit target shape: requires equal element
counts; flat data unchanged. -/
def reshapeTo (s : List ℕ) (t : Tensor) : Except TErr Tensor :=
  if t.shape.prod = s.prod then .ok ⟨s, t.data⟩ else .error .shapeErr

/-- `.transpose(1, 2)` on a rank-4 tensor `[a,b,c,d] → [a,c,b,d]`. -/
def transpose12 (t : Tensor) : Except TErr Tensor :=
  match t.shape with
  | [a, b, c, d] =>
      .ok ⟨[a, c, b, d],
        fun m => t.data (((m / d / b / c * b + m / d % b) * c + m / d / b % c) * d + m % d)⟩
  | _ => .error .shapeErr

/-- `.transpose(-1, -2)` on a rank-4 tensor `[a,b,c,d] → [a,b,d,c]`. -/
def transpose23 (t : Tensor) : Except TErr Tensor :=
  match t.shape with
  | [a, b, c, d] =>
      .ok ⟨[a, b, d, c],
        fun m => t.data ((m / c / d * c + m % c) * d + m / c % d)⟩
  | _ => .error .shapeErr

/-- `.permute(0, 2, 1)` on a rank-3 tensor `[a,b,c] → [a,c,b]`. -/
def permute021 (t : Tensor) : Except TErr Tensor :=
  match t.shape with
  | [a, b, c] =>
      .ok ⟨[a, c, b],
        fun m => t.data ((m / b / c * b + m % b) * c + m / b % c)⟩
  | _ => .error .shapeErr

/-- `torch.matmul` on two rank-4 tensors with exactly matching batch
dimensions: `[a,b,m,p] × [a,b,p,n] → [a,b,m,n]`. -/
def matmul4 (t u : Tensor) : Except TErr Tensor :=
  match t.shape, u.shape with
  | [a, b, m, p], [a2, b2, p2, n] =>
      if a2 = a ∧ b2 = b ∧ p2 = p then
        .ok ⟨[a, b, m, n],
          fun idx => ∑ k ∈ Finset.range p,
            t.data (idx / n * p + k) * u.data ((idx / n / m * p + k) * n + idx % n)⟩
      else .error .shapeErr
  | _, _ => .error .shapeErr

/-- Pointwise division of every entry by a scalar (`scores / np.sqrt(d_k)`). -/
noncomputable def scaleDiv (c : ℝ) (t : Tensor) : Tensor :=
  ⟨t.shape, fun m => t.data m / c⟩

/-- `nn.Softmax(dim=-1)`: normalized exponentials along the last axis. -/
noncomputable def softmaxLast (t : Tensor) : Except TErr Tensor :=
  match t.shape.getLast? with
  | some d =>
      .ok ⟨t.shape,
        fun m => Real.exp (t.data m) / ∑ k ∈ Finset.range d, Real.exp (t.data (m / d * d + k))⟩
  | none => .error .shapeErr

/-- Elementwise addition; requires equal shapes (the only case reachable in
this pipeline). -/
def addT (t u : Tensor) : Except TErr Tensor :=
  if t.shape = u.shape then .ok ⟨t.shape, fun m => t.data m + u.data m⟩
  else .error .shapeErr

/-- The `eps` of `nn.LayerNorm` (PyTorch default `1e-5`). -/
noncomputable def lnEps : ℝ := 1 / 100000

/-- `nn.LayerNorm(dm)`: per-row (all leading axes) normalization over the last
axis of size `dm`, with learned scale `gamma` and shift `beta`, using the
biased variance, `eps` inside the square root. -/
noncomputable def layerNorm (dm : ℕ) (gamma beta : ℕ → ℝ) (t : Tensor) : Except TErr Tensor :=
  match t.shape.getLast? with
  | some d =>
      if d = dm then
        .ok ⟨t.shape, fun m =>
          (t.data m - (∑ i ∈ Finset.range dm, t.data (m / dm * dm + i)) / dm) /
              Real.sqrt ((∑ i ∈ Finset.range dm,
                (t.data (m / dm * dm + i) -
                  (∑ j ∈ Finset.range dm, t.data (m / dm * dm + j)) / dm) ^ 2) / dm + lnEps) *
            gamma (m % dm) + beta (m % dm)⟩
      else .error .shapeErr
  | none => .error .shapeErr

/-- `ScaledDotProductAttention.forward` up to and including the softmax: the
attention-weight tensor `attn = softmax(Q·Kᵗ / sqrt(d_k))`. -/
noncomputable def sdpaAttn (Q K : Tensor) (dk : ℕ) : Except TErr Tensor := do
  let kt ← transpose23 K
  let scores0 ← matmul4 Q kt
  softmaxLast (scaleDiv (Real.sqrt dk) scores0)

/-- `ScaledDotProductAttention.forward(Q, K, V, d_k)`:
`scores = Q·Kᵗ / np.sqrt(d_k)`, `attn = softmax(scores, dim=-1)`,
`context = attn·V`.  Stateless: no learned parameters appear. -/
noncomputable def scaledDotProductAttention (Q K V : Tensor) (dk : ℕ) : Except TErr Tensor := do
  let attn ← sdpaAttn Q K dk
  matmul4 attn V

/-- Learned parameters of one `MultiHeadAttention` module: the four bias-free
projection weights and the layer-norm scale/shift. -/
structure MHAWeights where
  wq : ℕ → ℕ → ℝ
  wk : ℕ → ℕ → ℝ
  wv : ℕ → ℕ → ℝ
  fc : ℕ → ℕ → ℝ
  gamma : ℕ → ℝ
  beta : ℕ → ℝ

/-- `MultiHeadAttention.forward(input_Q, input_K, input_V)` with the module
hyper-parameters `d_model, d_k, d_v, n_heads`, following the source lines:
project, view `(batch, -1, heads, per-head)`, transpose `(1,2)` for each of
Q/K/V, one batched `ScaledDotProductAttention`, transpose back, reshape
`(batch, -1, heads*d_v)`, final projection, residual add, layer norm.
`input_Q.size(0)` requires a nonempty shape. -/
noncomputable def multiHeadAttentionForward (dModel dK dV nHeads : ℕ) (w : MHAWeights)
    (inputQ inputK inputV : Tensor) : Except TErr Tensor :=
  match inputQ.shape with
  | [] => .error .shapeErr
  | batchSize :: _ => do
      let pq ← linear dModel (dK * nHeads) w.wq inputQ
      let vq ← viewNeg1 batchSize [nHeads, dK] pq
      let q ← transpose12 vq
      let pk ← linear dModel (dK * nHeads) w.wk inputK
      let vk ← viewNeg1 batchSize [nHeads, dK] pk
      let k ← transpose12 vk
      let pv ← linear dModel (dV * nHeads) w.wv inputV
      let vv ← viewNeg1 batchSize [nHeads, dV] pv
      let v ← transpose12 vv
      let context ← scaledDotProductAttention q k v dK
      let ct ← transpose12 context
      let cr ← viewNeg1 batchSize [nHeads * dV] ct
      let output ← linear (nHeads * dV) dModel w.fc cr
      let s ← addT output inputQ
      layerNorm dModel w.gamma w.beta s

/-- Learned parameters of `PoswiseFeedForwardNet`: two bias-free linear
maps and the layer-norm scale/shift. -/
structure FFWeights where
  w1 : ℕ → ℕ → ℝ
  w2 : ℕ → ℕ → ℝ
  gamma : ℕ → ℝ
  beta : ℕ → ℝ

/-- Elementwise `ReLU`. -/
noncomputable def reluT (t : Tensor) : Tensor :=
  ⟨t.shape, fun m => max (t.data m) 0⟩

/-- `PoswiseFeedForwardNet.forward`: expand, ReLU, contract, residual,
layer norm. -/
noncomputable def poswiseFeedForward (dModel dFF : ℕ) (w : FFWeights) (t : Tensor) :
    Except TErr Tensor := do
  let h ← linear dModel dFF w.w1 t
  let o ← linear dFF dModel w.w2 (reluT h)
  let s ← addT o t
  layerNorm dModel w.gamma w.beta s

/-- Learned parameters of `Multi_Heads`: the two attention blocks and the
(constructed but never invoked) feed-forward block. -/
structure MultiHeadsWeights where
  mh1 : MHAWeights
  mh2 : MHAWeights
  ff : FFWeights

/-- `MultiHeadAttention()` with the default hyper-parameters
`d_model=512, d_k=64, d_v=64, n_heads=8`. -/
noncomputable def multiHeadAttentionDefault (w : MHAWeights) (q k v : Tensor) : Except TErr Tensor :=
  multiHeadAttentionForward 512 64 64 8 w q k v

/-- `Multi_Heads.forward(x)`: record the four input dimensions, reshape to
`(B, C, H*W)`, permute to `(B, H*W, C)`, two self-attention blocks, permute
back, reshape back.  The `Feed_forward` member is NOT invoked (the call is
commented out in the source). -/
noncomputable def multiHeadsForward (w : MultiHeadsWeights) (x : Tensor) : Except TErr Tensor :=
  match x.shape with
  | [x0, x1, x2, x3] => do
      let t1 ← reshapeTo [x0, x1, x2 * x3] x
      let t2 ← permute021 t1
      let t3 ← multiHeadAttentionDefault w.mh1 t2 t2 t2
      let t4 ← multiHeadAttentionDefault w.mh2 t3 t3 t3
      let t5 ← permute021 t4
      reshapeTo [x0, x1, x2, x3] t5
  | _ => .error .shapeErr

/-- `detectron2.layers.ShapeSpec` restricted to the two fields this file
uses: channel count and stride. -/
structure ShapeSpec where
  channels : ℕ
  stride : ℕ
deriving DecidableEq

/-- A python value flowing out of an upstream backbone's `forward`: either a
raw tensor or a named feature-map collection (dict). -/
inductive BValue where
  | tensor (t : Tensor) : BValue
  | coll (c : List (String × Tensor)) : BValue

/-- The `Backbone` capability contract (modelled from the spec for the
upstream, whose own source is not part of this file's scope): a forward map
producing a python value and a shape-metadata table. -/
structure Backbone where
  forward : Tensor → BValue
  outputShape : List (String × ShapeSpec)

/-- Applying `Multi_Heads.forward` to a python value: a dict has no
`.shape` / `.reshape`, so a collection raises a (python attribute/type)
error before any tensor computation. -/
noncomputable def multiHeadsForwardVal (w : MultiHeadsWeights) : BValue → Except TErr Tensor
  | .tensor t => multiHeadsForward w t
  | .coll _ => .error .typeErr

/-- The constructed `CIF_Multihead` module: the stride and channel count
recorded at construction, the wrapped upstream backbone, and the attention
stack's weights. -/
structure CIFMultihead where
  strides : ℕ
  in_channels : ℕ
  features1 : Backbone
  features2 : MultiHeadsWeights

/-- `CIF_Multihead.__init__(bottom_up)`: the `isinstance(bottom_up, Backbone)`
assert is captured by the argument type; then
`input_shape = bottom_up.output_shape()` is indexed at key `"CIF"` (stride,
then channels) — a missing key raises `KeyError` at construction time.
The fresh `Multi_Heads()` parameters are passed in as `w`. -/
def cifMultiheadInit (bottomUp : Backbone) (w : MultiHeadsWeights) :
    Except TErr CIFMultihead :=
  match List.lookup "CIF" bottomUp.outputShape with
  | some spec => .ok ⟨spec.stride, spec.channels, bottomUp, w⟩
  | none => .error .keyErr

/-- `CIF_Multihead.forward(x)`: `x = self.features1(x)` (the upstream output,
passed on UNCHANGED — no key is extracted), `x = self.features2(x)`, then
`{"CIF_MultiHead": x}`. -/
noncomputable def cifMultiheadForward (m : CIFMultihead) (x : Tensor) :
    Except TErr (List (String × Tensor)) := do
  let y ← multiHeadsForwardVal m.features2 (m.features1.forward x)
  .ok [("CIF_MultiHead", y)]

/-- `CIF_Multihead.output_shape()`. -/
def cifMultiheadOutputShape (m : CIFMultihead) : List (String × ShapeSpec) :=
  [("CIF_MultiHead", ⟨m.in_channels, m.strides⟩)]

/-- Softmax of a row of `n` entries, per the spec: normalized exponentials. -/
noncomputable def softmaxRow (n : ℕ) (f : ℕ → ℝ) (k : ℕ) : ℝ :=
  Real.exp (f k) / ∑ j ∈ Finset.range n, Real.exp (f j)

/-- The scaled score `Q·Kᵗ / sqrt(d_k)` of the spec, per batch `b`, head `h`,
query `i`, key `k`, with per-head width `d`. -/
noncomputable def specScore (d dk : ℕ) (Qf Kf : ℕ → ℕ → ℕ → ℕ → ℝ) (b h i k : ℕ) : ℝ :=
  (∑ t ∈ Finset.range d, Qf b h i t * Kf b h k t) / Real.sqrt dk

/-- The spec's contract for 4.1: `softmax(Q·Kᵗ / sqrt(d_k))·V` with the
softmax over the key axis (`n` keys), independently per batch, head and
query position. -/
noncomputable def specSDPA (d n dk : ℕ) (Qf Kf Vf : ℕ → ℕ → ℕ → ℕ → ℝ) (b h i j : ℕ) : ℝ :=
  ∑ k ∈ Finset.range n, softmaxRow n (specScore d dk Qf Kf b h i) k * Vf b h k j

/-- Spec step 1: bias-free linear projection of a token embedding. -/
noncomputable def specProj (dm : ℕ) (W : ℕ → ℕ → ℝ) (X : ℕ → ℕ → ℕ → ℝ) (b s o : ℕ) : ℝ :=
  ∑ i ∈ Finset.range dm, X b s i * W o i

/-- Spec steps 2–3: split each projection into heads (head `h`, within-head
coordinate `t`, projected index `h*64 + t`) and run the batched
scaled-dot-product attention over all `(batch, head)` pairs. -/
noncomputable def specCtx (w : MHAWeights) (S : ℕ) (Xq Xk Xv : ℕ → ℕ → ℕ → ℝ)
    (b h i j : ℕ) : ℝ :=
  specSDPA 64 S 64
    (fun b2 h2 s2 t2 => specProj 512 w.wq Xq b2 s2 (h2 * 64 + t2))
    (fun b2 h2 s2 t2 => specProj 512 w.wk Xk b2 s2 (h2 * 64 + t2))
    (fun b2 h2 s2 t2 => specProj 512 w.wv Xv b2 s2 (h2 * 64 + t2)) b h i j

/-- Spec step 4: recombine the heads into one embedding axis. -/
noncomputable def specMerged (w : MHAWeights) (S : ℕ) (Xq Xk Xv : ℕ → ℕ → ℕ → ℝ)
    (b s e : ℕ) : ℝ :=
  specCtx w S Xq Xk Xv b (e / 64) s (e % 64)

/-- Spec steps 5–6 (before normalization): final projection plus the
`inputQ` residual. -/
noncomputable def specResid (w : MHAWeights) (S : ℕ) (Xq Xk Xv : ℕ → ℕ → ℕ → ℝ)
    (b s o : ℕ) : ℝ :=
  (∑ e ∈ Finset.range 512, specMerged w S Xq Xk Xv b s e * w.fc o e) + Xq b s o

/-- Layer normalization of a row of `dm` entries with learned scale/shift. -/
noncomputable def specLayerNorm (dm : ℕ) (gamma beta : ℕ → ℝ) (f : ℕ → ℝ) (o : ℕ) : ℝ :=
  (f o - (∑ k ∈ Finset.range dm, f k) / dm) /
      Real.sqrt ((∑ k ∈ Finset.range dm,
        (f k - (∑ k2 ∈ Finset.range dm, f k2) / dm) ^ 2) / dm + lnEps) *
    gamma o + beta o

/-- The spec's composition for `MultiHeadAttention.forward` (§4.2 steps 1–6)
at token count `S`, with default hyper-parameters
`d_model=512, d_k=d_v=64, n_heads=8`. -/
noncomputable def mhaSpec (w : MHAWeights) (S : ℕ) (Xq Xk Xv : ℕ → ℕ → ℕ → ℝ)
    (b s e : ℕ) : ℝ :=
  specLayerNorm 512 w.gamma w.beta (specResid w S Xq Xk Xv b s) e

/-- The spec-side composition for the whole `Multi_Heads` stack on the token
view: two self-attention layers (the feed-forward member is not invoked). -/
noncomputable def stackSpec (w : MultiHeadsWeights) (S : ℕ) (X : ℕ → ℕ → ℕ → ℝ)
    (b s e : ℕ) : ℝ :=
  mhaSpec w.mh2 S (mhaSpec w.mh1 S X X X) (mhaSpec w.mh1 S X X X)
    (mhaSpec w.mh1 S X X X) b s e

/-- Zero projection weights, unit layer-norm scale, zero shift. -/
noncomputable def w0MHA : MHAWeights :=
  ⟨fun _ _ => 0, fun _ _ => 0, fun _ _ => 0, fun _ _ => 0, fun _ => 1, fun _ => 0⟩

/-- A feed-forward parameter assignment (all-zero weights). -/
noncomputable def ffA : FFWeights := ⟨fun _ _ => 0, fun _ _ => 0, fun _ => 1, fun _ => 0⟩

/-- A different feed-forward parameter assignment (all-one weights). -/
noncomputable def ffB : FFWeights := ⟨fun _ _ => 1, fun _ _ => 1, fun _ => 1, fun _ => 0⟩

/-- Stack weights with feed-forward parameters `ffA`. -/
noncomputable def mwA : MultiHeadsWeights := ⟨w0MHA, w0MHA, ffA⟩

/-- Stack weights equal to `mwA` except for the feed-forward parameters. -/
noncomputable def mwB : MultiHeadsWeights := ⟨w0MHA, w0MHA, ffB⟩

/-- An all-zero `(1, 512, 1, 1)` feature map. -/
noncomputable def xDemo : Tensor := ⟨[1, 512, 1, 1], fun _ => 0⟩

/-- An all-one `(1, 1, 1, 1)` head-split tensor. -/
noncomputable def tW : Tensor := ⟨[1, 1, 1, 1], fun _ => 1⟩

/-- A key tensor with an empty key axis: shape `(1, 1, 0, 1)`. -/
noncomputable def kCex : Tensor := ⟨[1, 1, 0, 1], fun _ => 0⟩

/-- An all-zero `(1, 1, 512)` token sequence. -/
noncomputable def t3W : Tensor := ⟨[1, 1, 512], fun _ => 0⟩

/-- An all-zero `(0, 1, 512)` token sequence (empty batch). -/
noncomputable def tB0 : Tensor := ⟨[0, 1, 512], fun _ => 0⟩

/-- An all-zero `(0, 512, 1, 1)` feature map (empty batch). -/
noncomputable def x0B : Tensor := ⟨[0, 512, 1, 1], fun _ => 0⟩

/-- An all-zero `(2, 256, 7, 7)` feature map (channel count 256). -/
noncomputable def xC8 : Tensor := ⟨[2, 256, 7, 7], fun _ => 0⟩

/-- An upstream backbone advertising a `"CIF"` entry and returning a raw
tensor from `forward`. -/
noncomputable def buA : Backbone := ⟨fun t => BValue.tensor t, [("CIF", ⟨512, 32⟩)]⟩

/-- An upstream backbone whose metadata lacks the `"CIF"` key. -/
noncomputable def buB : Backbone := ⟨fun t => BValue.coll [("p2", t)], [("res5", ⟨256, 32⟩)]⟩

/-- An upstream backbone advertising `"CIF"` metadata but returning a named
collection (per the Backbone contract) that omits the `"CIF"` key. -/
noncomputable def buC : Backbone := ⟨fun t => BValue.coll [("p2", t)], [("CIF", ⟨512, 32⟩)]⟩

/-- The action of a permutation of `Fin n` on natural-number indices
(identity outside `range n`). -/
def permFn (n : ℕ) (σ : Equiv.Perm (Fin n)) : ℕ → ℕ :=
  fun p => if h : p < n then (σ ⟨p, h⟩ : ℕ) else p

/-- Permuting the flattened spatial positions of a `(B, C, H, W)` feature
map: entry `(b, c, p)` of the result is entry `(b, c, σ p)` of the input. -/
def permuteSpatial (n : ℕ) (σ : Equiv.Perm (Fin n)) (x : Tensor) : Tensor :=
  match x.shape with
  | [a, b, h, w] =>
      ⟨[a, b, h, w],
        fun m => x.data (m / (h * w) * (h * w) + permFn n σ (m % (h * w)))⟩
  | _ => x

/-! ## Lemmas and claim theorems -/

theorem encDiv (r : ℕ) {k c : ℕ} (h : k < c) : (r * c + k) / c = r := by
  rw [mul_comm, Nat.mul_add_div (by omega)]
  simp [Nat.div_eq_of_lt h]

theorem encMod (r : ℕ) {k c : ℕ} (h : k < c) : (r * c + k) % c = k := by
  rw [Nat.add_mod, Nat.mul_mod_left]
  simp [Nat.mod_eq_of_lt h]

theorem g3_mk (s : List ℕ) (f : ℕ → ℝ) (a b c i j k : ℕ) (hs : s = [a, b, c]) :
    Tensor.g3 ⟨s, f⟩ i j k = f ((i * b + j) * c + k) := by
  subst hs; rfl

theorem g4_mk (s : List ℕ) (f : ℕ → ℝ) (a b c d i j k l : ℕ) (hs : s = [a, b, c, d]) :
    Tensor.g4 ⟨s, f⟩ i j k l = f (((i * b + j) * c + k) * d + l) := by
  subst hs; rfl

theorem g3_eq (t : Tensor) (a b c i j k : ℕ) (ht : t.shape = [a, b, c]) :
    t.g3 i j k = t.data ((i * b + j) * c + k) := by
  unfold Tensor.g3; rw [ht]

theorem g4_eq (t : Tensor) (a b c d i j k l : ℕ) (ht : t.shape = [a, b, c, d]) :
    t.g4 i j k l = t.data (((i * b + j) * c + k) * d + l) := by
  unfold Tensor.g4; rw [ht]

/-- `nn.Linear` on a rank-3 input of matching last dimension: succeeds, and
each output entry is the expected weighted sum. -/
theorem linear_char (a s inF outF : ℕ) (W : ℕ → ℕ → ℝ) (t : Tensor)
    (ht : t.shape = [a, s, inF]) :
    ∃ u, linear inF outF W t = Except.ok u ∧ u.shape = [a, s, outF] ∧
      ∀ i j o, o < outF →
        u.g3 i j o = ∑ k ∈ Finset.range inF, t.g3 i j k * W o k := by
  have h1 : linear inF outF W t = Except.ok ⟨[a, s, outF],
      fun m => ∑ k ∈ Finset.range inF, t.data (m / outF * inF + k) * W (m % outF) k⟩ := by
    unfold linear
    rw [ht]
    simp
  refine ⟨_, h1, rfl, ?_⟩
  intro i j o ho
  rw [g3_mk _ _ a s outF _ _ _ rfl]
  rw [encDiv _ ho, encMod _ ho]
  refine Finset.sum_congr rfl ?_
  intro k _
  rw [g3_eq t a s inF i j k ht]

/-- `nn.Linear` rejects a rank-3 input whose last dimension differs from its
`in_features`. -/
theorem linear_err (a s c inF outF : ℕ) (W : ℕ → ℕ → ℝ) (t : Tensor)
    (ht : t.shape = [a, s, c]) (hc : c ≠ inF) :
    linear inF outF W t = Except.error TErr.shapeErr := by
  unfold linear
  rw [ht]
  simp [hc]

/-- `.view(B, -1, r1, r2)` on a rank-3 input `[B, S, r1*r2]` with `B > 0`:
the inferred dimension is `S` and flat data is unchanged. -/
theorem viewNeg1_char (B S r1 r2 : ℕ) (t : Tensor) (hB : 0 < B)
    (hr : 0 < r1 * r2) (ht : t.shape = [B, S, r1 * r2]) :
    viewNeg1 B [r1, r2] t = Except.ok ⟨[B, S, r1, r2], t.data⟩ := by
  have hx : 0 < B * (r1 * r2) := Nat.mul_pos hB hr
  have hknown : B * ([r1, r2] : List ℕ).prod = B * (r1 * r2) := by simp
  have hprod : t.shape.prod = B * (r1 * r2) * S := by rw [ht]; simp; ring
  unfold viewNeg1
  rw [hknown, hprod]
  rw [if_pos ⟨by omega, Nat.mul_mod_right _ _⟩]
  rw [Nat.mul_div_cancel_left S hx]

/-- `.reshape(B, -1, r)` on a rank-4 input `[B, S, h, w]` with `h*w = r` and
`B > 0`: the inferred dimension is `S` and flat data is unchanged. -/
theorem viewNeg1_char4 (B S h w r : ℕ) (t : Tensor) (hB : 0 < B)
    (hr : 0 < r) (hhw : h * w = r) (ht : t.shape = [B, S, h, w]) :
    viewNeg1 B [r] t = Except.ok ⟨[B, S, r], t.data⟩ := by
  have hx : 0 < B * r := Nat.mul_pos hB hr
  have hknown : B * ([r] : List ℕ).prod = B * r := by simp
  have hprod : t.shape.prod = B * r * S := by rw [ht]; simp [← hhw]; ring
  unfold viewNeg1
  rw [hknown, hprod]
  rw [if_pos ⟨by omega, Nat.mul_mod_right _ _⟩]
  rw [Nat.mul_div_cancel_left S hx]

/-- `.transpose(1, 2)` on a rank-4 tensor: succeeds and swaps the two middle
indices. -/
theorem transpose12_char (a b c d : ℕ) (t : Tensor) (ht : t.shape = [a, b, c, d]) :
    ∃ u, transpose12 t = Except.ok u ∧ u.shape = [a, c, b, d] ∧
      ∀ i j k l, j < b → k < c → l < d → u.g4 i k j l = t.g4 i j k l := by
  have h1 : transpose12 t = Except.ok ⟨[a, c, b, d],
      fun m => t.data (((m / d / b / c * b + m / d % b) * c + m / d / b % c) * d + m % d)⟩ := by
    unfold transpose12
    rw [ht]
  refine ⟨_, h1, rfl, ?_⟩
  intro i j k l hj hk hl
  rw [g4_mk _ _ a c b d _ _ _ _ rfl]
  rw [encMod _ hl, encDiv _ hl, encMod _ hj, encDiv _ hj, encMod _ hk, encDiv _ hk]
  rw [g4_eq t a b c d i j k l ht]

/-- `.transpose(-1, -2)` on a rank-4 tensor: succeeds and swaps the two last
indices. -/
theorem transpose23_char (a b c d : ℕ) (t : Tensor) (ht : t.shape = [a, b, c, d]) :
    ∃ u, transpose23 t = Except.ok u ∧ u.shape = [a, b, d, c] ∧
      ∀ i j k l, k < c → l < d → u.g4 i j l k = t.g4 i j k l := by
  have h1 : transpose23 t = Except.ok ⟨[a, b, d, c],
      fun m => t.data ((m / c / d * c + m % c) * d + m / c % d)⟩ := by
    unfold transpose23
    rw [ht]
  refine ⟨_, h1, rfl, ?_⟩
  intro i j k l hk hl
  rw [g4_mk _ _ a b d c _ _ _ _ rfl]
  rw [encMod _ hk, encDiv _ hk, encMod _ hl, encDiv _ hl]
  rw [g4_eq t a b c d i j k l ht]

/-- `.permute(0, 2, 1)` on a rank-3 tensor: succeeds and swaps the two last
indices. -/
theorem permute021_char (a b c : ℕ) (t : Tensor) (ht : t.shape = [a, b, c]) :
    ∃ u, permute021 t = Except.ok u ∧ u.shape = [a, c, b] ∧
      ∀ i j k, j < b → k < c → u.g3 i k j = t.g3 i j k := by
  have h1 : permute021 t = Except.ok ⟨[a, c, b],
      fun m => t.data ((m / b / c * b + m % b) * c + m / b % c)⟩ := by
    unfold permute021
    rw [ht]
  refine ⟨_, h1, rfl, ?_⟩
  intro i j k hj hk
  rw [g3_mk _ _ a c b _ _ _ rfl]
  rw [encMod _ hj, encDiv _ hj, encMod _ hk, encDiv _ hk]
  rw [g3_eq t a b c i j k ht]

/-- Batched `torch.matmul` on rank-4 tensors of matching shapes: succeeds and
each entry is the expected inner product. -/
theorem matmul4_char (a b m p n : ℕ) (t u : Tensor)
    (ht : t.shape = [a, b, m, p]) (hu : u.shape = [a, b, p, n]) :
    ∃ v, matmul4 t u = Except.ok v ∧ v.shape = [a, b, m, n] ∧
      ∀ i j r c, r < m → c < n →
        v.g4 i j r c = ∑ k ∈ Finset.range p, t.g4 i j r k * u.g4 i j k c := by
  have h1 : matmul4 t u = Except.ok ⟨[a, b, m, n],
      fun idx => ∑ k ∈ Finset.range p,
        t.data (idx / n * p + k) * u.data ((idx / n / m * p + k) * n + idx % n)⟩ := by
    unfold matmul4
    rw [ht, hu]
    simp
  refine ⟨_, h1, rfl, ?_⟩
  intro i j r c hr hc
  rw [g4_mk _ _ a b m n _ _ _ _ rfl]
  rw [encDiv _ hc, encMod _ hc, encDiv _ hr]
  refine Finset.sum_congr rfl ?_
  intro k _
  rw [g4_eq t a b m p i j r k ht, g4_eq u a b p n i j k c hu]

/-- `nn.Softmax(dim=-1)` on a rank-4 tensor: succeeds, keeps the shape, and
each entry is the normalized exponential of its row. -/
theorem softmaxLast_char (a b m n : ℕ) (t : Tensor) (ht : t.shape = [a, b, m, n]) :
    ∃ u, softmaxLast t = Except.ok u ∧ u.shape = [a, b, m, n] ∧
      ∀ i j r c, c < n →
        u.g4 i j r c = Real.exp (t.g4 i j r c) /
          ∑ k ∈ Finset.range n, Real.exp (t.g4 i j r k) := by
  have h1 : softmaxLast t = Except.ok ⟨t.shape,
      fun m' => Real.exp (t.data m') /
        ∑ k ∈ Finset.range n, Real.exp (t.data (m' / n * n + k))⟩ := by
    unfold softmaxLast
    rw [ht]
    rfl
  refine ⟨_, h1, ht, ?_⟩
  intro i j r c hc
  rw [g4_mk _ _ a b m n _ _ _ _ ht]
  rw [encDiv _ hc]
  rw [g4_eq t a b m n i j r c ht]
  congr 1
  refine Finset.sum_congr rfl ?_
  intro k _
  rw [g4_eq t a b m n i j r k ht]

/-- `scaleDiv` keeps the shape and divides each rank-4 entry. -/
theorem scaleDiv_g4 (sc : ℝ) (a b c d : ℕ) (t : Tensor) (ht : t.shape = [a, b, c, d])
    (i j k l : ℕ) : (scaleDiv sc t).g4 i j k l = t.g4 i j k l / sc := by
  unfold scaleDiv
  rw [g4_mk _ _ a b c d _ _ _ _ ht, g4_eq t a b c d i j k l ht]

theorem scaleDiv_shape (sc : ℝ) (t : Tensor) : (scaleDiv sc t).shape = t.shape := rfl

/-- Elementwise addition of two rank-3 tensors of the same shape. -/
theorem addT_char (a b c : ℕ) (t u : Tensor)
    (ht : t.shape = [a, b, c]) (hu : u.shape = [a, b, c]) :
    ∃ v, addT t u = Except.ok v ∧ v.shape = [a, b, c] ∧
      ∀ i j k, v.g3 i j k = t.g3 i j k + u.g3 i j k := by
  have h1 : addT t u = Except.ok ⟨t.shape, fun m => t.data m + u.data m⟩ := by
    unfold addT
    rw [if_pos (ht.trans hu.symm)]
  refine ⟨_, h1, ht, ?_⟩
  intro i j k
  rw [g3_mk _ _ a b c _ _ _ ht]
  rw [g3_eq t a b c i j k ht, g3_eq u a b c i j k hu]

/-- `nn.LayerNorm(dm)` on a rank-3 tensor with matching last dimension:
succeeds, keeps the shape, and each entry is the normalized value rescaled by
`gamma` and shifted by `beta`. -/
theorem layerNorm_char (a s dm : ℕ) (gamma beta : ℕ → ℝ) (t : Tensor)
    (ht : t.shape = [a, s, dm]) :
    ∃ u, layerNorm dm gamma beta t = Except.ok u ∧ u.shape = [a, s, dm] ∧
      ∀ i j o, o < dm →
        u.g3 i j o =
          (t.g3 i j o - (∑ k ∈ Finset.range dm, t.g3 i j k) / dm) /
              Real.sqrt ((∑ k ∈ Finset.range dm,
                (t.g3 i j k - (∑ k2 ∈ Finset.range dm, t.g3 i j k2) / dm) ^ 2) / dm + lnEps) *
            gamma o + beta o := by
  have h1 : layerNorm dm gamma beta t = Except.ok ⟨t.shape, fun m =>
      (t.data m - (∑ i ∈ Finset.range dm, t.data (m / dm * dm + i)) / dm) /
          Real.sqrt ((∑ i ∈ Finset.range dm,
            (t.data (m / dm * dm + i) -
              (∑ j ∈ Finset.range dm, t.data (m / dm * dm + j)) / dm) ^ 2) / dm + lnEps) *
        gamma (m % dm) + beta (m % dm)⟩ := by
    unfold layerNorm
    rw [ht]
    simp
  refine ⟨_, h1, ht, ?_⟩
  intro i j o ho
  rw [g3_mk _ _ a s dm _ _ _ ht]
  rw [encDiv _ ho, encMod _ ho]
  have hrow : ∀ k : ℕ, t.data ((i * s + j) * dm + k) = t.g3 i j k := by
    intro k
    rw [g3_eq t a s dm i j k ht]
  simp only [hrow]

/-- The attention-weight tensor inside `ScaledDotProductAttention`: it is the
row-softmax of the scaled scores. -/
theorem sdpaAttn_char (B H m n d dk : ℕ) (Q K : Tensor)
    (hQ : Q.shape = [B, H, m, d]) (hK : K.shape = [B, H, n, d]) :
    ∃ A, sdpaAttn Q K dk = Except.ok A ∧ A.shape = [B, H, m, n] ∧
      ∀ b h i k, i < m → k < n →
        A.g4 b h i k = softmaxRow n (specScore d dk Q.g4 K.g4 b h i) k := by
  obtain ⟨kt, hkt, hkts, hktg⟩ := transpose23_char B H n d K hK
  obtain ⟨s0, hs0, hs0s, hs0g⟩ := matmul4_char B H m d n Q kt hQ hkts
  have hscs : (scaleDiv (Real.sqrt dk) s0).shape = [B, H, m, n] := by
    rw [scaleDiv_shape, hs0s]
  obtain ⟨A, hA, hAs, hAg⟩ := softmaxLast_char B H m n (scaleDiv (Real.sqrt dk) s0) hscs
  have hrun : sdpaAttn Q K dk = Except.ok A := by
    unfold sdpaAttn
    rw [hkt]
    show (matmul4 Q kt).bind _ = _
    rw [hs0]
    exact hA
  have hsc : ∀ b h i k, i < m → k < n →
      (scaleDiv (Real.sqrt dk) s0).g4 b h i k = specScore d dk Q.g4 K.g4 b h i k := by
    intro b h i k him hkn
    rw [scaleDiv_g4 _ B H m n s0 hs0s]
    rw [hs0g b h i k him hkn]
    unfold specScore
    congr 1
    refine Finset.sum_congr rfl fun t htm => ?_
    rw [hktg b h k t hkn (Finset.mem_range.mp htm)]
  refine ⟨A, hrun, hAs, ?_⟩
  intro b h i k him hkn
  rw [hAg b h i k hkn]
  unfold softmaxRow
  rw [hsc b h i k him hkn]
  congr 1
  refine Finset.sum_congr rfl fun j hj => ?_
  rw [hsc b h i j him (Finset.mem_range.mp hj)]

/-- `ScaledDotProductAttention.forward` computes the spec contract
`softmax(Q·Kᵗ / sqrt(d_k))·V` entrywise. -/
theorem sdpa_char (B H m n d e dk : ℕ) (Q K V : Tensor)
    (hQ : Q.shape = [B, H, m, d]) (hK : K.shape = [B, H, n, d])
    (hV : V.shape = [B, H, n, e]) :
    ∃ C, scaledDotProductAttention Q K V dk = Except.ok C ∧ C.shape = [B, H, m, e] ∧
      ∀ b h i j, i < m → j < e →
        C.g4 b h i j = specSDPA d n dk Q.g4 K.g4 V.g4 b h i j := by
  obtain ⟨A, hA, hAs, hAg⟩ := sdpaAttn_char B H m n d dk Q K hQ hK
  obtain ⟨C, hC, hCs, hCg⟩ := matmul4_char B H m n e A V hAs hV
  have hrun : scaledDotProductAttention Q K V dk = Except.ok C := by
    unfold scaledDotProductAttention
    rw [hA]
    exact hC
  refine ⟨C, hrun, hCs, ?_⟩
  intro b h i j him hje
  rw [hCg b h i j him hje]
  unfold specSDPA
  refine Finset.sum_congr rfl fun k hk => ?_
  rw [hAg b h i k him (Finset.mem_range.mp hk)]

theorem exceptBindOk {α β : Type} (a : α) (f : α → Except TErr β) :
    (Except.ok a : Except TErr α) >>= f = f a := rfl

theorem exceptBindErr {α β : Type} (e : TErr) (f : α → Except TErr β) :
    (Except.error e : Except TErr α) >>= f = Except.error e := rfl

/-- Reading a `(B, S, 8, 64)` view of flat data at `(b, s, h, t)` is reading
the underlying `(B, S, 512)` tensor at projected index `h*64 + t`. -/
theorem view_g4_g3 (B S : ℕ) (td : ℕ → ℝ) (b s h t : ℕ) :
    Tensor.g4 ⟨[B, S, 8, 64], td⟩ b s h t = Tensor.g3 ⟨[B, S, 512], td⟩ b s (h * 64 + t) := by
  rw [g4_mk _ _ B S 8 64 _ _ _ _ rfl, g3_mk _ _ B S 512 _ _ _ rfl]
  congr 1
  ring

/-- Reading a `(B, S, 512)` reshape of flat data at `(b, s, e)` is reading
the underlying `(B, S, 8, 64)` tensor at head `e/64`, coordinate `e%64`. -/
theorem merge_g3_g4 (B S : ℕ) (td : ℕ → ℝ) (b s e : ℕ) :
    Tensor.g3 ⟨[B, S, 512], td⟩ b s e = Tensor.g4 ⟨[B, S, 8, 64], td⟩ b s (e / 64) (e % 64) := by
  rw [g3_mk _ _ B S 512 _ _ _ rfl, g4_mk _ _ B S 8 64 _ _ _ _ rfl]
  congr 1
  omega

/-- `specSDPA` only reads its query function at the given query row, and its
key/value functions at key rows below `n`. -/
theorem specSDPA_congr (d n dk : ℕ) (Qf Qg Kf Kg Vf Vg : ℕ → ℕ → ℕ → ℕ → ℝ) (b h i j : ℕ)
    (hQ : ∀ t, t < d → Qf b h i t = Qg b h i t)
    (hK : ∀ k t, k < n → t < d → Kf b h k t = Kg b h k t)
    (hV : ∀ k, k < n → Vf b h k j = Vg b h k j) :
    specSDPA d n dk Qf Kf Vf b h i j = specSDPA d n dk Qg Kg Vg b h i j := by
  unfold specSDPA softmaxRow specScore
  have hscore : ∀ k, k < n →
      (∑ t ∈ Finset.range d, Qf b h i t * Kf b h k t) =
      (∑ t ∈ Finset.range d, Qg b h i t * Kg b h k t) := by
    intro k hk
    refine Finset.sum_congr rfl fun t htd => ?_
    rw [hQ t (Finset.mem_range.mp htd), hK k t hk (Finset.mem_range.mp htd)]
  refine Finset.sum_congr rfl fun k hk => ?_
  have hkn := Finset.mem_range.mp hk
  rw [hscore k hkn, hV k hkn]
  congr 2
  refine Finset.sum_congr rfl fun k2 hk2 => ?_
  rw [hscore k2 (Finset.mem_range.mp hk2)]

/-- `specLayerNorm` only reads its row below `dm`. -/
theorem specLayerNorm_congr (dm : ℕ) (gamma beta : ℕ → ℝ) (f g : ℕ → ℝ) (o : ℕ)
    (hf : ∀ k, k < dm → f k = g k) (ho : o < dm) :
    specLayerNorm dm gamma beta f o = specLayerNorm dm gamma beta g o := by
  unfold specLayerNorm
  have h1 : (∑ k ∈ Finset.range dm, f k) = ∑ k ∈ Finset.range dm, g k :=
    Finset.sum_congr rfl fun k hk => hf k (Finset.mem_range.mp hk)
  have h2 : (∑ k ∈ Finset.range dm, (f k - (∑ k2 ∈ Finset.range dm, f k2) / dm) ^ 2) =
      ∑ k ∈ Finset.range dm, (g k - (∑ k2 ∈ Finset.range dm, g k2) / dm) ^ 2 := by
    refine Finset.sum_congr rfl fun k hk => ?_
    rw [hf k (Finset.mem_range.mp hk), h1]
  rw [hf o ho, h2, h1]

/-- Central characterization: on same-shape rank-3 inputs `[B, S, 512]` with a
nonempty batch, `MultiHeadAttention.forward` (default hyper-parameters)
succeeds, preserves the shape, and computes exactly the spec's composition
`mhaSpec` at every valid index. -/
theorem mha_char (B S : ℕ) (w : MHAWeights) (iQ iK iV : Tensor) (hB : 0 < B)
    (hQs : iQ.shape = [B, S, 512]) (hKs : iK.shape = [B, S, 512])
    (hVs : iV.shape = [B, S, 512]) :
    ∃ out, multiHeadAttentionDefault w iQ iK iV = Except.ok out ∧
      out.shape = [B, S, 512] ∧
      ∀ b s e, s < S → e < 512 →
        out.g3 b s e = mhaSpec w S iQ.g3 iK.g3 iV.g3 b s e := by
  obtain ⟨pq, hpq, hpqs, hpqg⟩ := linear_char B S 512 512 w.wq iQ hQs
  have hvq : viewNeg1 B [8, 64] pq = Except.ok ⟨[B, S, 8, 64], pq.data⟩ :=
    viewNeg1_char B S 8 64 pq hB (by norm_num) (by rw [hpqs])
  obtain ⟨qT, htq, hqs, hqg⟩ := transpose12_char B S 8 64 ⟨[B, S, 8, 64], pq.data⟩ rfl
  obtain ⟨pk, hpk, hpks, hpkg⟩ := linear_char B S 512 512 w.wk iK hKs
  have hvk : viewNeg1 B [8, 64] pk = Except.ok ⟨[B, S, 8, 64], pk.data⟩ :=
    viewNeg1_char B S 8 64 pk hB (by norm_num) (by rw [hpks])
  obtain ⟨kT, htk, hks, hkg⟩ := transpose12_char B S 8 64 ⟨[B, S, 8, 64], pk.data⟩ rfl
  obtain ⟨pv, hpv, hpvs, hpvg⟩ := linear_char B S 512 512 w.wv iV hVs
  have hvv : viewNeg1 B [8, 64] pv = Except.ok ⟨[B, S, 8, 64], pv.data⟩ :=
    viewNeg1_char B S 8 64 pv hB (by norm_num) (by rw [hpvs])
  obtain ⟨vT, htv, hvs, hvg⟩ := transpose12_char B S 8 64 ⟨[B, S, 8, 64], pv.data⟩ rfl
  obtain ⟨ctx, hctx, hctxs, hctxg⟩ := sdpa_char B 8 S S 64 64 64 qT kT vT hqs hks hvs
  obtain ⟨ct, hct, hcts, hctg⟩ := transpose12_char B 8 S 64 ctx hctxs
  have hcr : viewNeg1 B [512] ct = Except.ok ⟨[B, S, 512], ct.data⟩ :=
    viewNeg1_char4 B S 8 64 512 ct hB (by norm_num) (by norm_num) hcts
  obtain ⟨o1, ho1, ho1s, ho1g⟩ := linear_char B S 512 512 w.fc ⟨[B, S, 512], ct.data⟩ rfl
  obtain ⟨s2, hs2, hs2s, hs2g⟩ := addT_char B S 512 o1 iQ ho1s hQs
  obtain ⟨out, hout, houts, houtg⟩ := layerNorm_char B S 512 w.gamma w.beta s2 hs2s
  have hrun : multiHeadAttentionDefault w iQ iK iV = Except.ok out := by
    unfold multiHeadAttentionDefault multiHeadAttentionForward
    rw [hQs]
    simp only [show (64 * 8 : ℕ) = 512 from rfl, show (8 * 64 : ℕ) = 512 from rfl,
      hpq, exceptBindOk, hvq, htq, hpk, hvk, htk, hpv, hvv, htv, hctx, hct, hcr,
      ho1, hs2, hout]
  have hq4 : ∀ b2 h s3 t, s3 < S → h < 8 → t < 64 →
      qT.g4 b2 h s3 t = specProj 512 w.wq iQ.g3 b2 s3 (h * 64 + t) := by
    intro b2 h s3 t hs3 hh ht
    rw [hqg b2 s3 h t hs3 hh ht]
    rw [view_g4_g3 B S pq.data b2 s3 h t]
    rw [g3_mk _ _ B S 512 _ _ _ rfl]
    have hd : pq.data ((b2 * S + s3) * 512 + (h * 64 + t)) = pq.g3 b2 s3 (h * 64 + t) :=
      (g3_eq pq B S 512 b2 s3 (h * 64 + t) hpqs).symm
    rw [hd, hpqg b2 s3 (h * 64 + t) (by omega)]
    rfl
  have hk4 : ∀ b2 h s3 t, s3 < S → h < 8 → t < 64 →
      kT.g4 b2 h s3 t = specProj 512 w.wk iK.g3 b2 s3 (h * 64 + t) := by
    intro b2 h s3 t hs3 hh ht
    rw [hkg b2 s3 h t hs3 hh ht]
    rw [view_g4_g3 B S pk.data b2 s3 h t]
    rw [g3_mk _ _ B S 512 _ _ _ rfl]
    have hd : pk.data ((b2 * S + s3) * 512 + (h * 64 + t)) = pk.g3 b2 s3 (h * 64 + t) :=
      (g3_eq pk B S 512 b2 s3 (h * 64 + t) hpks).symm
    rw [hd, hpkg b2 s3 (h * 64 + t) (by omega)]
    rfl
  have hv4 : ∀ b2 h s3 t, s3 < S → h < 8 → t < 64 →
      vT.g4 b2 h s3 t = specProj 512 w.wv iV.g3 b2 s3 (h * 64 + t) := by
    intro b2 h s3 t hs3 hh ht
    rw [hvg b2 s3 h t hs3 hh ht]
    rw [view_g4_g3 B S pv.data b2 s3 h t]
    rw [g3_mk _ _ B S 512 _ _ _ rfl]
    have hd : pv.data ((b2 * S + s3) * 512 + (h * 64 + t)) = pv.g3 b2 s3 (h * 64 + t) :=
      (g3_eq pv B S 512 b2 s3 (h * 64 + t) hpvs).symm
    rw [hd, hpvg b2 s3 (h * 64 + t) (by omega)]
    rfl
  have hctx2 : ∀ b2 h i j, i < S → h < 8 → j < 64 →
      ctx.g4 b2 h i j = specCtx w S iQ.g3 iK.g3 iV.g3 b2 h i j := by
    intro b2 h i j hi hh hj
    rw [hctxg b2 h i j hi hj]
    unfold specCtx
    refine specSDPA_congr 64 S 64 _ _ _ _ _ _ b2 h i j ?_ ?_ ?_
    · intro t ht
      exact hq4 b2 h i t hi hh ht
    · intro k t hk ht
      exact hk4 b2 h k t hk hh ht
    · intro k hk
      exact hv4 b2 h k j hk hh hj
  have hcr3 : ∀ b2 s3 e2, s3 < S → e2 < 512 →
      Tensor.g3 ⟨[B, S, 512], ct.data⟩ b2 s3 e2 =
        specMerged w S iQ.g3 iK.g3 iV.g3 b2 s3 e2 := by
    intro b2 s3 e2 hs3 he2
    rw [merge_g3_g4 B S ct.data b2 s3 e2]
    have h1 : Tensor.g4 ⟨[B, S, 8, 64], ct.data⟩ b2 s3 (e2 / 64) (e2 % 64) =
        ct.g4 b2 s3 (e2 / 64) (e2 % 64) := by
      rw [g4_mk _ _ B S 8 64 _ _ _ _ rfl, g4_eq ct B S 8 64 _ _ _ _ hcts]
    rw [h1]
    rw [hctg b2 (e2 / 64) s3 (e2 % 64) (by omega) hs3 (by omega)]
    rw [hctx2 b2 (e2 / 64) s3 (e2 % 64) hs3 (by omega) (by omega)]
    rfl
  have hs2p : ∀ b2 s3 o, s3 < S → o < 512 →
      s2.g3 b2 s3 o = specResid w S iQ.g3 iK.g3 iV.g3 b2 s3 o := by
    intro b2 s3 o hs3 ho
    rw [hs2g b2 s3 o]
    rw [ho1g b2 s3 o ho]
    have hsum : (∑ e2 ∈ Finset.range 512,
        Tensor.g3 ⟨[B, S, 512], ct.data⟩ b2 s3 e2 * w.fc o e2) =
        ∑ e2 ∈ Finset.range 512, specMerged w S iQ.g3 iK.g3 iV.g3 b2 s3 e2 * w.fc o e2 := by
      refine Finset.sum_congr rfl fun e2 he2 => ?_
      rw [hcr3 b2 s3 e2 hs3 (Finset.mem_range.mp he2)]
    rw [hsum]
    rfl
  refine ⟨out, hrun, houts, ?_⟩
  intro b s e hsS he512
  rw [houtg b s e he512]
  show specLayerNorm 512 w.gamma w.beta (fun k => s2.g3 b s k) e =
    mhaSpec w S iQ.g3 iK.g3 iV.g3 b s e
  unfold mhaSpec
  refine specLayerNorm_congr 512 w.gamma w.beta _ _ e ?_ he512
  intro k hk
  exact hs2p b s k hsS hk

/-- `mhaSpec` only reads its input functions at batch `b`, tokens below `S`,
channels below 512. -/
theorem mhaSpec_congr (w : MHAWeights) (S : ℕ) (Xq Xk Xv Yq Yk Yv : ℕ → ℕ → ℕ → ℝ)
    (b s e : ℕ)
    (hXq : ∀ s2 e2, s2 < S → e2 < 512 → Xq b s2 e2 = Yq b s2 e2)
    (hXk : ∀ s2 e2, s2 < S → e2 < 512 → Xk b s2 e2 = Yk b s2 e2)
    (hXv : ∀ s2 e2, s2 < S → e2 < 512 → Xv b s2 e2 = Yv b s2 e2)
    (hs : s < S) (he : e < 512) :
    mhaSpec w S Xq Xk Xv b s e = mhaSpec w S Yq Yk Yv b s e := by
  have hproj : ∀ (W : ℕ → ℕ → ℝ) (X Y : ℕ → ℕ → ℕ → ℝ),
      (∀ s2 e2, s2 < S → e2 < 512 → X b s2 e2 = Y b s2 e2) →
      ∀ s2 o, s2 < S → specProj 512 W X b s2 o = specProj 512 W Y b s2 o := by
    intro W X Y hXY s2 o hs2
    unfold specProj
    refine Finset.sum_congr rfl fun i hi => ?_
    rw [hXY s2 i hs2 (Finset.mem_range.mp hi)]
  have hctxc : ∀ h i j, i < S →
      specCtx w S Xq Xk Xv b h i j = specCtx w S Yq Yk Yv b h i j := by
    intro h i j hi
    unfold specCtx
    refine specSDPA_congr 64 S 64 _ _ _ _ _ _ b h i j ?_ ?_ ?_
    · intro t _
      exact hproj w.wq Xq Yq hXq i _ hi
    · intro k t hk _
      exact hproj w.wk Xk Yk hXk k _ hk
    · intro k hk
      exact hproj w.wv Xv Yv hXv k _ hk
  have hresc : ∀ o, o < 512 →
      specResid w S Xq Xk Xv b s o = specResid w S Yq Yk Yv b s o := by
    intro o ho
    unfold specResid
    rw [hXq s o hs ho]
    have hsum : (∑ e2 ∈ Finset.range 512, specMerged w S Xq Xk Xv b s e2 * w.fc o e2) =
        ∑ e2 ∈ Finset.range 512, specMerged w S Yq Yk Yv b s e2 * w.fc o e2 := by
      refine Finset.sum_congr rfl fun e2 _ => ?_
      have hc := hctxc (e2 / 64) s (e2 % 64) hs
      unfold specMerged
      rw [hc]
    rw [hsum]
  unfold mhaSpec
  exact specLayerNorm_congr 512 w.gamma w.beta _ _ e hresc he

/-- Characterization of `Multi_Heads.forward` on a `[B, 512, H, W]` feature
map with nonempty batch: it succeeds, preserves the shape, and at channel `c`
and flattened spatial position `p` computes `stackSpec` of the token view
(token `p`, embedding = channel vector). -/
theorem multiHeads_char (B H W2 : ℕ) (w : MultiHeadsWeights) (x : Tensor) (hB : 0 < B)
    (hx : x.shape = [B, 512, H, W2]) :
    ∃ y, multiHeadsForward w x = Except.ok y ∧ y.shape = [B, 512, H, W2] ∧
      ∀ b c p, c < 512 → p < H * W2 →
        y.data ((b * 512 + c) * (H * W2) + p) =
          stackSpec w (H * W2)
            (fun b2 s2 e2 => x.data ((b2 * 512 + e2) * (H * W2) + s2)) b p c := by
  have hre1 : reshapeTo [B, 512, H * W2] x = Except.ok ⟨[B, 512, H * W2], x.data⟩ := by
    unfold reshapeTo
    rw [if_pos (by rw [hx]; simp; try ring)]
  obtain ⟨t2, hp1, ht2s, ht2g⟩ := permute021_char B 512 (H * W2) ⟨[B, 512, H * W2], x.data⟩ rfl
  obtain ⟨o1, ho1, ho1s, ho1g⟩ := mha_char B (H * W2) w.mh1 t2 t2 t2 hB ht2s ht2s ht2s
  obtain ⟨o2, ho2, ho2s, ho2g⟩ := mha_char B (H * W2) w.mh2 o1 o1 o1 hB ho1s ho1s ho1s
  obtain ⟨t5, hp2, ht5s, ht5g⟩ := permute021_char B (H * W2) 512 o2 ho2s
  have hre2 : reshapeTo [B, 512, H, W2] t5 = Except.ok ⟨[B, 512, H, W2], t5.data⟩ := by
    unfold reshapeTo
    rw [if_pos (by rw [ht5s]; simp; try ring)]
  have hrun : multiHeadsForward w x = Except.ok ⟨[B, 512, H, W2], t5.data⟩ := by
    unfold multiHeadsForward
    rw [hx]
    simp only [hre1, exceptBindOk, hp1, ho1, ho2, hp2, hre2]
  have hX2 : ∀ b2 s2 e2, s2 < H * W2 → e2 < 512 → t2.g3 b2 s2 e2 =
      x.data ((b2 * 512 + e2) * (H * W2) + s2) := by
    intro b2 s2 e2 hs2 he2
    rw [ht2g b2 e2 s2 he2 hs2]
    rw [g3_mk _ _ B 512 (H * W2) _ _ _ rfl]
  have ho1X : ∀ b2 s2 e2, s2 < H * W2 → e2 < 512 → o1.g3 b2 s2 e2 =
      mhaSpec w.mh1 (H * W2)
        (fun b3 s3 e3 => x.data ((b3 * 512 + e3) * (H * W2) + s3))
        (fun b3 s3 e3 => x.data ((b3 * 512 + e3) * (H * W2) + s3))
        (fun b3 s3 e3 => x.data ((b3 * 512 + e3) * (H * W2) + s3)) b2 s2 e2 := by
    intro b2 s2 e2 hs2 he2
    rw [ho1g b2 s2 e2 hs2 he2]
    exact mhaSpec_congr w.mh1 (H * W2) t2.g3 t2.g3 t2.g3 _ _ _ b2 s2 e2
      (fun s3 e3 hs3 he3 => hX2 b2 s3 e3 hs3 he3)
      (fun s3 e3 hs3 he3 => hX2 b2 s3 e3 hs3 he3)
      (fun s3 e3 hs3 he3 => hX2 b2 s3 e3 hs3 he3) hs2 he2
  have ho2X : ∀ b2 s2 e2, s2 < H * W2 → e2 < 512 → o2.g3 b2 s2 e2 =
      stackSpec w (H * W2)
        (fun b3 s3 e3 => x.data ((b3 * 512 + e3) * (H * W2) + s3)) b2 s2 e2 := by
    intro b2 s2 e2 hs2 he2
    rw [ho2g b2 s2 e2 hs2 he2]
    unfold stackSpec
    exact mhaSpec_congr w.mh2 (H * W2) o1.g3 o1.g3 o1.g3 _ _ _ b2 s2 e2
      (fun s3 e3 hs3 he3 => ho1X b2 s3 e3 hs3 he3)
      (fun s3 e3 hs3 he3 => ho1X b2 s3 e3 hs3 he3)
      (fun s3 e3 hs3 he3 => ho1X b2 s3 e3 hs3 he3) hs2 he2
  refine ⟨⟨[B, 512, H, W2], t5.data⟩, hrun, rfl, ?_⟩
  intro b c p hc hp
  show t5.data ((b * 512 + c) * (H * W2) + p) = _
  have h5 : t5.data ((b * 512 + c) * (H * W2) + p) = t5.g3 b c p :=
    (g3_eq t5 B 512 (H * W2) b c p ht5s).symm
  rw [h5, ht5g b p c hp hc]
  exact ho2X b p c hp hc

/-- C5: for every upstream backbone whose metadata contains the designated
`"CIF"` entry, construction succeeds and `output_shape()` is the single-entry
mapping from `"CIF_MultiHead"` to a `ShapeSpec` with exactly the upstream
entry's channels and stride, independently of the attention weights (and of
any forward invocation, which the definition of `cifMultiheadOutputShape`
never mentions). -/
theorem C5_output_shape_forwards_metadata (bu : Backbone) (w : MultiHeadsWeights)
    (spec : ShapeSpec) (h : List.lookup "CIF" bu.outputShape = some spec) :
    ∃ m, cifMultiheadInit bu w = Except.ok m ∧
      cifMultiheadOutputShape m = [("CIF_MultiHead", ⟨spec.channels, spec.stride⟩)] ∧
      ∀ w2 m2, cifMultiheadInit bu w2 = Except.ok m2 →
        cifMultiheadOutputShape m2 = cifMultiheadOutputShape m := by
  refine ⟨⟨spec.stride, spec.channels, bu, w⟩, ?_, rfl, ?_⟩
  · unfold cifMultiheadInit
    rw [h]
  · intro w2 m2 hm2
    unfold cifMultiheadInit at hm2
    rw [h] at hm2
    injection hm2 with h3
    rw [← h3]
    rfl

theorem C5_witness : List.lookup "CIF" buA.outputShape = some ⟨512, 32⟩ ∧
    ∃ m, cifMultiheadInit buA mwA = Except.ok m ∧
      cifMultiheadOutputShape m = [("CIF_MultiHead", ⟨512, 32⟩)] := by
  refine ⟨rfl, ?_⟩
  obtain ⟨m, h1, h2, _⟩ := C5_output_shape_forwards_metadata buA mwA ⟨512, 32⟩ rfl
  exact ⟨m, h1, h2⟩

/-- C10: construction (`CIF_Multihead.__init__`) succeeds exactly when the
upstream `Backbone`'s `output_shape()` contains the key `"CIF"` (the
`isinstance(bottom_up, Backbone)` assert is the argument's type); when the
key is missing it fails with the missing-key error, before any forward
invocation. -/
theorem C10_init_key_iff (bu : Backbone) (w : MultiHeadsWeights) :
    ((∃ m, cifMultiheadInit bu w = Except.ok m) ↔
      (List.lookup "CIF" bu.outputShape).isSome) ∧
    (List.lookup "CIF" bu.outputShape = none →
      cifMultiheadInit bu w = Except.error TErr.keyErr) := by
  constructor
  · constructor
    · rintro ⟨m, hm⟩
      cases hl : List.lookup "CIF" bu.outputShape with
      | some spec => simp
      | none =>
          unfold cifMultiheadInit at hm
          rw [hl] at hm
          exact Except.noConfusion hm
    · intro hs
      rw [Option.isSome_iff_exists] at hs
      obtain ⟨spec, hspec⟩ := hs
      refine ⟨⟨spec.stride, spec.channels, bu, w⟩, ?_⟩
      unfold cifMultiheadInit
      rw [hspec]
  · intro hn
    unfold cifMultiheadInit
    rw [hn]

theorem C10_witness : cifMultiheadInit buB mwA = Except.error TErr.keyErr ∧
    ∃ m, cifMultiheadInit buA mwA = Except.ok m :=
  ⟨(C10_init_key_iff buB mwA).2 rfl, ((C10_init_key_iff buA mwA).1).mpr rfl⟩

/-- C4 (amended): `CIF_Multihead.forward` passes the upstream output to the
attention stack UNCHANGED — no key is ever extracted.  So when the upstream
`forward` returns a named collection (with or without the designated
`"CIF"` key), the call fails with a python type/attribute error inside
`Multi_Heads.forward` (a dict has no `.shape`), not with a missing-key
error. -/
theorem C4_forward_coll_gives_typeErr (bu : Backbone) (w : MultiHeadsWeights)
    (m : CIFMultihead) (hm : cifMultiheadInit bu w = Except.ok m) (x : Tensor)
    (c : List (String × Tensor)) (hc : bu.forward x = BValue.coll c) :
    cifMultiheadForward m x = Except.error TErr.typeErr := by
  cases hl : List.lookup "CIF" bu.outputShape with
  | none =>
      unfold cifMultiheadInit at hm
      rw [hl] at hm
      exact Except.noConfusion hm
  | some spec =>
      unfold cifMultiheadInit at hm
      rw [hl] at hm
      injection hm with h2
      rw [← h2]
      unfold cifMultiheadForward
      show (multiHeadsForwardVal w (bu.forward x)) >>= _ = _
      rw [hc]
      rfl

theorem C4_witness : cifMultiheadForward ⟨32, 512, buC, mwA⟩ xDemo = Except.error TErr.typeErr :=
  C4_forward_coll_gives_typeErr buC mwA ⟨32, 512, buC, mwA⟩ rfl xDemo [("p2", xDemo)] rfl

/-- C4 counterexample: a concrete constructed module whose upstream returns
a collection omitting `"CIF"`: `forward` fails, but with the type error, not
the missing-key error the claim states. -/
theorem C4_counterexample :
    cifMultiheadInit buC mwA = Except.ok ⟨32, 512, buC, mwA⟩ ∧
    buC.forward tW = BValue.coll [("p2", tW)] ∧
    List.lookup "CIF" [("p2", tW)] = none ∧
    cifMultiheadForward ⟨32, 512, buC, mwA⟩ tW = Except.error TErr.typeErr ∧
    ¬ cifMultiheadForward ⟨32, 512, buC, mwA⟩ tW = Except.error TErr.keyErr := by
  refine ⟨rfl, rfl, rfl, rfl, ?_⟩
  intro h
  rw [show cifMultiheadForward ⟨32, 512, buC, mwA⟩ tW = Except.error TErr.typeErr from rfl] at h
  have h2 := Except.error.inj h
  exact absurd h2 (by decide)

/-- C9: `Multi_Heads.forward` never invokes the constructed
`PoswiseFeedForwardNet` member (its call is commented out): any two weight
assignments agreeing on the two attention blocks — regardless of the
feed-forward parameters — give identical forward output on every input. -/
theorem C9_ff_never_invoked (w1 w2 : MultiHeadsWeights)
    (h1 : w1.mh1 = w2.mh1) (h2 : w1.mh2 = w2.mh2) (x : Tensor) :
    multiHeadsForward w1 x = multiHeadsForward w2 x := by
  unfold multiHeadsForward multiHeadAttentionDefault
  rw [h1, h2]

theorem C9_witness : mwA.mh1 = mwB.mh1 ∧ mwA.mh2 = mwB.mh2 ∧
    mwA.ff.w1 0 0 ≠ mwB.ff.w1 0 0 ∧
    multiHeadsForward mwA xDemo = multiHeadsForward mwB xDemo :=
  ⟨rfl, rfl, by norm_num [mwA, mwB, ffA, ffB], C9_ff_never_invoked mwA mwB rfl rfl xDemo⟩

/-- C8: feeding the stack (configured with `d_model = 512`) a feature map
whose channel count differs from 512 fails with the dimension-mismatch error
at the first linear projection, before any output is produced. -/
theorem C8_channel_mismatch_errors (B C2 H W2 : ℕ) (w : MultiHeadsWeights) (x : Tensor)
    (hx : x.shape = [B, C2, H, W2]) (hC : C2 ≠ 512) :
    multiHeadsForward w x = Except.error TErr.shapeErr := by
  have hre1 : reshapeTo [B, C2, H * W2] x = Except.ok ⟨[B, C2, H * W2], x.data⟩ := by
    unfold reshapeTo
    rw [if_pos (by rw [hx]; simp; try ring)]
  obtain ⟨t2, hp1, ht2s, _⟩ := permute021_char B C2 (H * W2) ⟨[B, C2, H * W2], x.data⟩ rfl
  have hlin : linear 512 512 w.mh1.wq t2 = Except.error TErr.shapeErr :=
    linear_err B (H * W2) C2 512 512 w.mh1.wq t2 ht2s hC
  unfold multiHeadsForward multiHeadAttentionDefault multiHeadAttentionForward
  rw [hx]
  simp only [show (64 * 8 : ℕ) = 512 from rfl, hre1, exceptBindOk, hp1, ht2s, hlin,
    exceptBindErr]

theorem C8_witness : xC8.shape = [2, 256, 7, 7] ∧ 256 ≠ 512 ∧
    multiHeadsForward mwA xC8 = Except.error TErr.shapeErr :=
  ⟨rfl, by decide, C8_channel_mismatch_errors 2 256 7 7 mwA xC8 rfl (by decide)⟩

/-- C1: for matching head-split shapes and a positive scalar `d_k`,
`ScaledDotProductAttention.forward(Q, K, V, d_k)` returns
`softmax(Q·Kᵗ / sqrt(d_k))·V` with the softmax over the key axis,
independently per batch, head and query position (`specSDPA`).  The
definition of `scaledDotProductAttention` is a pure function with no weight
parameters: no learned state, no side effects. -/
theorem C1_sdpa_computes_spec (B H m n d e dk : ℕ) (Q K V : Tensor)
    (hQ : Q.shape = [B, H, m, d]) (hK : K.shape = [B, H, n, d])
    (hV : V.shape = [B, H, n, e]) (_hdk : 0 < dk) :
    ∃ C, scaledDotProductAttention Q K V dk = Except.ok C ∧ C.shape = [B, H, m, e] ∧
      ∀ b h i j, i < m → j < e →
        C.g4 b h i j = specSDPA d n dk Q.g4 K.g4 V.g4 b h i j :=
  sdpa_char B H m n d e dk Q K V hQ hK hV

theorem C1_witness : (0 < 1) ∧
    ∃ C, scaledDotProductAttention tW tW tW 1 = Except.ok C ∧ C.shape = [1, 1, 1, 1] ∧
      ∀ b h i j, i < 1 → j < 1 →
        C.g4 b h i j = specSDPA 1 1 1 tW.g4 tW.g4 tW.g4 b h i j :=
  ⟨by decide, C1_sdpa_computes_spec 1 1 1 1 1 1 1 tW tW tW rfl rfl rfl (by decide)⟩

/-- C7 (amended): provided the key axis is nonempty (`0 < n`), the
attention-weight tensor computed inside `ScaledDotProductAttention` — the
softmax of the scaled scores — sums to 1 along the key axis for every batch
element, head, and query position.  (With an empty key axis each row sums to
0, see the counterexample.) -/
theorem C7_attention_rows_sum_to_one (B H m n d dk : ℕ) (Q K : Tensor)
    (hQ : Q.shape = [B, H, m, d]) (hK : K.shape = [B, H, n, d]) (hn : 0 < n) :
    ∃ A, sdpaAttn Q K dk = Except.ok A ∧ A.shape = [B, H, m, n] ∧
      ∀ b h i, (∑ k ∈ Finset.range n, A.g4 b h i k) = 1 := by
  obtain ⟨kt, hkt, hkts, _⟩ := transpose23_char B H n d K hK
  obtain ⟨s0, hs0, hs0s, _⟩ := matmul4_char B H m d n Q kt hQ hkts
  have hscs : (scaleDiv (Real.sqrt dk) s0).shape = [B, H, m, n] := by
    rw [scaleDiv_shape, hs0s]
  obtain ⟨A, hA, hAs, hAg⟩ := softmaxLast_char B H m n (scaleDiv (Real.sqrt dk) s0) hscs
  have hrun : sdpaAttn Q K dk = Except.ok A := by
    unfold sdpaAttn
    rw [hkt]
    show (matmul4 Q kt).bind _ = _
    rw [hs0]
    exact hA
  refine ⟨A, hrun, hAs, ?_⟩
  intro b h i
  have hpos : (0 : ℝ) < ∑ k2 ∈ Finset.range n,
      Real.exp ((scaleDiv (Real.sqrt dk) s0).g4 b h i k2) := by
    apply Finset.sum_pos
    · intro k _
      exact Real.exp_pos _
    · exact Finset.nonempty_range_iff.mpr (by omega)
  have hterms : (∑ k ∈ Finset.range n, A.g4 b h i k) =
      ∑ k ∈ Finset.range n, Real.exp ((scaleDiv (Real.sqrt dk) s0).g4 b h i k) /
        ∑ k2 ∈ Finset.range n, Real.exp ((scaleDiv (Real.sqrt dk) s0).g4 b h i k2) :=
    Finset.sum_congr rfl fun k hk => hAg b h i k (Finset.mem_range.mp hk)
  rw [hterms, ← Finset.sum_div]
  exact div_self (ne_of_gt hpos)

theorem C7_witness : tW.shape = [1, 1, 1, 1] ∧ (0 < 1) ∧
    ∃ A, sdpaAttn tW tW 1 = Except.ok A ∧ A.shape = [1, 1, 1, 1] ∧
      ∀ b h i, (∑ k ∈ Finset.range 1, A.g4 b h i k) = 1 :=
  ⟨rfl, by decide, C7_attention_rows_sum_to_one 1 1 1 1 1 1 tW tW rfl rfl (by decide)⟩

/-- C7 counterexample: with an empty key axis (`K` of shape `(1,1,0,1)`) the
attention-weight tensor exists but its (unique) row sums to 0, not 1: the
claim's universal statement over all `Q, K` fails. -/
theorem C7_counterexample : ∃ A, sdpaAttn tW kCex 1 = Except.ok A ∧
    A.shape = [1, 1, 1, 0] ∧ ¬ (∑ k ∈ Finset.range 0, A.g4 0 0 0 k) = 1 := by
  refine ⟨_, rfl, rfl, ?_⟩
  simp

/-- C2 (amended): on three inputs of shape `(batch, tokens, 512)` with a
nonempty batch, `MultiHeadAttention.forward` (default configuration) equals
the spec's composition `mhaSpec` — bias-free projections, head split, one
batched scaled-dot-product-attention call, head recombination, bias-free
output projection, residual add of `inputQ`, layer normalization — and the
output shape equals `inputQ`'s shape.  (With an empty batch the head-split
view cannot infer its `-1` dimension and forward raises a shape error, see
the counterexample.) -/
theorem C2_mha_is_composition (B S : ℕ) (w : MHAWeights) (iQ iK iV : Tensor)
    (hB : 0 < B) (hQ : iQ.shape = [B, S, 512]) (hK : iK.shape = [B, S, 512])
    (hV : iV.shape = [B, S, 512]) :
    ∃ out, multiHeadAttentionDefault w iQ iK iV = Except.ok out ∧
      out.shape = iQ.shape ∧
      ∀ b s e, s < S → e < 512 →
        out.g3 b s e = mhaSpec w S iQ.g3 iK.g3 iV.g3 b s e := by
  obtain ⟨out, h1, h2, h3⟩ := mha_char B S w iQ iK iV hB hQ hK hV
  exact ⟨out, h1, h2.trans hQ.symm, h3⟩

theorem C2_witness : (0 < 1) ∧
    ∃ out, multiHeadAttentionDefault w0MHA t3W t3W t3W = Except.ok out ∧
      out.shape = t3W.shape ∧
      ∀ b s e, s < 1 → e < 512 →
        out.g3 b s e = mhaSpec w0MHA 1 t3W.g3 t3W.g3 t3W.g3 b s e :=
  ⟨Nat.one_pos, C2_mha_is_composition 1 1 w0MHA t3W t3W t3W Nat.one_pos rfl rfl rfl⟩

/-- C2 counterexample: with batch size 0 (inputs of shape `(0, 1, 512)`),
`MultiHeadAttention.forward` produces no output at all — the `-1` of
`.view(batch_size, -1, n_heads, d_k)` cannot be inferred from 0 elements and
a shape error is raised — refuting the claim's unqualified "for every
inputQ, inputK, inputV of shape (batch, tokens, d_model) ... the output
shape equals inputQ's shape". -/
theorem C2_counterexample :
    multiHeadAttentionDefault w0MHA tB0 tB0 tB0 = Except.error TErr.shapeErr ∧
    ¬ ∃ out, multiHeadAttentionDefault w0MHA tB0 tB0 tB0 = Except.ok out := by
  refine ⟨rfl, ?_⟩
  rintro ⟨out, hout⟩
  rw [show multiHeadAttentionDefault w0MHA tB0 tB0 tB0 = Except.error TErr.shapeErr
    from rfl] at hout
  exact Except.noConfusion hout

/-- C3 (amended): on a feature map of shape `(B, C, H, W)` with `C = 512`
(the configured `d_model`) and `B ≥ 1`, `Multi_Heads.forward` returns a
tensor of exactly the input's shape.  (With `B = 0` forward raises a shape
error instead of returning a tensor, see the counterexample.) -/
theorem C3_stack_preserves_shape (B H W2 : ℕ) (w : MultiHeadsWeights) (x : Tensor)
    (hB : 0 < B) (hx : x.shape = [B, 512, H, W2]) :
    ∃ y, multiHeadsForward w x = Except.ok y ∧ y.shape = [B, 512, H, W2] := by
  obtain ⟨y, h1, h2, _⟩ := multiHeads_char B H W2 w x hB hx
  exact ⟨y, h1, h2⟩

theorem C3_witness : xDemo.shape = [1, 512, 1, 1] ∧
    ∃ y, multiHeadsForward mwA xDemo = Except.ok y ∧ y.shape = [1, 512, 1, 1] :=
  ⟨rfl, C3_stack_preserves_shape 1 1 1 mwA xDemo Nat.one_pos rfl⟩

/-- C3 counterexample: the `(0, 512, 1, 1)` feature map (batch size 0,
channel count exactly 512) makes `Multi_Heads.forward` raise a shape error
(the `-1` view inference fails on 0 elements), so no tensor of shape
`(0, 512, 1, 1)` is returned. -/
theorem C3_counterexample :
    multiHeadsForward mwA x0B = Except.error TErr.shapeErr ∧
    ¬ ∃ y, multiHeadsForward mwA x0B = Except.ok y ∧ y.shape = [0, 512, 1, 1] := by
  refine ⟨rfl, ?_⟩
  rintro ⟨y, hy, -⟩
  rw [show multiHeadsForward mwA x0B = Except.error TErr.shapeErr from rfl] at hy
  exact Except.noConfusion hy

theorem permFn_lt (n : ℕ) (σ : Equiv.Perm (Fin n)) (p : ℕ) (hp : p < n) :
    permFn n σ p < n := by
  unfold permFn
  rw [dif_pos hp]
  exact (σ ⟨p, hp⟩).isLt

/-- Sums over `range n` are invariant under reindexing by a permutation of
`Fin n`. -/
theorem sum_permFn (n : ℕ) (σ : Equiv.Perm (Fin n)) (f : ℕ → ℝ) :
    (∑ k ∈ Finset.range n, f (permFn n σ k)) = ∑ k ∈ Finset.range n, f k := by
  rw [← Fin.sum_univ_eq_sum_range (fun k => f (permFn n σ k)) n,
    ← Fin.sum_univ_eq_sum_range f n]
  have h1 : ∀ i : Fin n, f (permFn n σ (i : ℕ)) = f ((σ i : Fin n) : ℕ) := by
    intro i
    congr 1
    unfold permFn
    rw [dif_pos i.isLt]
  rw [Finset.sum_congr rfl fun i _ => h1 i]
  exact Equiv.sum_comp σ (fun i : Fin n => f (i : ℕ))

theorem softmaxRow_perm (S : ℕ) (σ : Equiv.Perm (Fin S)) (G : ℕ → ℝ) (k : ℕ) :
    softmaxRow S (fun k2 => G (permFn S σ k2)) k = softmaxRow S G (permFn S σ k) := by
  simp only [softmaxRow]
  rw [sum_permFn S σ (fun j2 => Real.exp (G j2))]

/-- Equivariance of the batched scaled-dot-product attention under a
simultaneous permutation of the query and key/value token axes. -/
theorem specSDPA_tokenPerm (d S dk : ℕ) (σ : Equiv.Perm (Fin S))
    (Qf Kf Vf : ℕ → ℕ → ℕ → ℕ → ℝ) (b h i j : ℕ) :
    specSDPA d S dk (fun b2 h2 s2 t2 => Qf b2 h2 (permFn S σ s2) t2)
      (fun b2 h2 s2 t2 => Kf b2 h2 (permFn S σ s2) t2)
      (fun b2 h2 s2 t2 => Vf b2 h2 (permFn S σ s2) t2) b h i j =
    specSDPA d S dk Qf Kf Vf b h (permFn S σ i) j := by
  simp only [specSDPA]
  have hscore : specScore d dk (fun b2 h2 s2 t2 => Qf b2 h2 (permFn S σ s2) t2)
      (fun b2 h2 s2 t2 => Kf b2 h2 (permFn S σ s2) t2) b h i =
      fun k => specScore d dk Qf Kf b h (permFn S σ i) (permFn S σ k) :=
    funext fun k => rfl
  rw [hscore]
  have hterm : ∀ k,
      softmaxRow S (fun k2 => specScore d dk Qf Kf b h (permFn S σ i) (permFn S σ k2)) k =
      softmaxRow S (specScore d dk Qf Kf b h (permFn S σ i)) (permFn S σ k) :=
    fun k => softmaxRow_perm S σ (specScore d dk Qf Kf b h (permFn S σ i)) k
  refine Eq.trans (Finset.sum_congr rfl fun k _ => by rw [hterm k]) ?_
  exact sum_permFn S σ
    (fun k2 => softmaxRow S (specScore d dk Qf Kf b h (permFn S σ i)) k2 * Vf b h k2 j)

/-- Equivariance of the full spec-side multi-head-attention layer under a
token permutation. -/
theorem mhaSpec_tokenPerm (w : MHAWeights) (S : ℕ) (σ : Equiv.Perm (Fin S))
    (X : ℕ → ℕ → ℕ → ℝ) (b s e : ℕ) :
    mhaSpec w S (fun b2 s2 e2 => X b2 (permFn S σ s2) e2)
      (fun b2 s2 e2 => X b2 (permFn S σ s2) e2)
      (fun b2 s2 e2 => X b2 (permFn S σ s2) e2) b s e =
    mhaSpec w S X X X b (permFn S σ s) e := by
  have hctxe : ∀ h2 i j,
      specCtx w S (fun b2 s2 e2 => X b2 (permFn S σ s2) e2)
        (fun b2 s2 e2 => X b2 (permFn S σ s2) e2)
        (fun b2 s2 e2 => X b2 (permFn S σ s2) e2) b h2 i j =
      specCtx w S X X X b h2 (permFn S σ i) j := by
    intro h2 i j
    unfold specCtx
    exact specSDPA_tokenPerm 64 S 64 σ
      (fun b2 h3 s2 t2 => specProj 512 w.wq X b2 s2 (h3 * 64 + t2))
      (fun b2 h3 s2 t2 => specProj 512 w.wk X b2 s2 (h3 * 64 + t2))
      (fun b2 h3 s2 t2 => specProj 512 w.wv X b2 s2 (h3 * 64 + t2)) b h2 i j
  have hres : specResid w S (fun b2 s2 e2 => X b2 (permFn S σ s2) e2)
      (fun b2 s2 e2 => X b2 (permFn S σ s2) e2)
      (fun b2 s2 e2 => X b2 (permFn S σ s2) e2) b s =
      specResid w S X X X b (permFn S σ s) := by
    funext o
    unfold specResid
    have hsum : (∑ e2 ∈ Finset.range 512,
        specMerged w S (fun b2 s2 e2 => X b2 (permFn S σ s2) e2)
          (fun b2 s2 e2 => X b2 (permFn S σ s2) e2)
          (fun b2 s2 e2 => X b2 (permFn S σ s2) e2) b s e2 * w.fc o e2) =
        ∑ e2 ∈ Finset.range 512,
        specMerged w S X X X b (permFn S σ s) e2 * w.fc o e2 := by
      refine Finset.sum_congr rfl fun e2 _ => ?_
      unfold specMerged
      rw [hctxe (e2 / 64) s (e2 % 64)]
    rw [hsum]
  unfold mhaSpec
  rw [hres]

/-- Equivariance of the two-layer stack composition under a token
permutation. -/
theorem stackSpec_tokenPerm (w : MultiHeadsWeights) (S : ℕ) (σ : Equiv.Perm (Fin S))
    (X : ℕ → ℕ → ℕ → ℝ) (b s e : ℕ) :
    stackSpec w S (fun b2 s2 e2 => X b2 (permFn S σ s2) e2) b s e =
    stackSpec w S X b (permFn S σ s) e := by
  unfold stackSpec
  have h1 : mhaSpec w.mh1 S (fun b2 s2 e2 => X b2 (permFn S σ s2) e2)
      (fun b2 s2 e2 => X b2 (permFn S σ s2) e2)
      (fun b2 s2 e2 => X b2 (permFn S σ s2) e2) =
      fun b2 s2 e2 => mhaSpec w.mh1 S X X X b2 (permFn S σ s2) e2 := by
    funext b2 s2 e2
    exact mhaSpec_tokenPerm w.mh1 S σ X b2 s2 e2
  rw [h1]
  exact mhaSpec_tokenPerm w.mh2 S σ (mhaSpec w.mh1 S X X X) b s e

/-- `stackSpec` only reads its input at batch `b`, tokens below `S`, channels
below 512. -/
theorem stackSpec_congr (w : MultiHeadsWeights) (S : ℕ) (X Y : ℕ → ℕ → ℕ → ℝ)
    (b s e : ℕ) (hXY : ∀ s2 e2, s2 < S → e2 < 512 → X b s2 e2 = Y b s2 e2)
    (hs : s < S) (he : e < 512) :
    stackSpec w S X b s e = stackSpec w S Y b s e := by
  unfold stackSpec
  have h1 : ∀ s2 e2, s2 < S → e2 < 512 →
      mhaSpec w.mh1 S X X X b s2 e2 = mhaSpec w.mh1 S Y Y Y b s2 e2 :=
    fun s2 e2 hs2 he2 => mhaSpec_congr w.mh1 S X X X Y Y Y b s2 e2 hXY hXY hXY hs2 he2
  exact mhaSpec_congr w.mh2 S _ _ _ _ _ _ b s e h1 h1 h1 hs he

/-- C6: with no positional encoding, `Multi_Heads.forward` is equivariant
under any permutation `σ` of the flattened spatial token axis: the stack
applied to the spatially permuted input equals the spatially permuted stack
output, entry by entry. -/
theorem C6_stack_perm_equivariant (B H W2 : ℕ) (w : MultiHeadsWeights)
    (σ : Equiv.Perm (Fin (H * W2))) (x : Tensor) (hB : 0 < B)
    (hx : x.shape = [B, 512, H, W2]) :
    ∃ y yp, multiHeadsForward w x = Except.ok y ∧
      multiHeadsForward w (permuteSpatial (H * W2) σ x) = Except.ok yp ∧
      yp.shape = y.shape ∧
      ∀ b c p, c < 512 → p < H * W2 →
        yp.data ((b * 512 + c) * (H * W2) + p) =
          y.data ((b * 512 + c) * (H * W2) + permFn (H * W2) σ p) := by
  have hpx : permuteSpatial (H * W2) σ x = ⟨[B, 512, H, W2],
      fun m => x.data (m / (H * W2) * (H * W2) + permFn (H * W2) σ (m % (H * W2)))⟩ := by
    unfold permuteSpatial
    rw [hx]
  obtain ⟨y, hy, hys, hyg⟩ := multiHeads_char B H W2 w x hB hx
  obtain ⟨yp, hyp, hyps, hypg⟩ := multiHeads_char B H W2 w (permuteSpatial (H * W2) σ x) hB
    (by rw [hpx])
  refine ⟨y, yp, hy, hyp, by rw [hyps, hys], ?_⟩
  intro b c p hc hp
  rw [hypg b c p hc hp, hyg b c (permFn (H * W2) σ p) hc (permFn_lt _ σ p hp)]
  have hPX : ∀ s2 e2, s2 < H * W2 → e2 < 512 →
      (permuteSpatial (H * W2) σ x).data ((b * 512 + e2) * (H * W2) + s2) =
      x.data ((b * 512 + e2) * (H * W2) + permFn (H * W2) σ s2) := by
    intro s2 e2 hs2 he2
    rw [hpx]
    show x.data (((b * 512 + e2) * (H * W2) + s2) / (H * W2) * (H * W2) +
      permFn (H * W2) σ (((b * 512 + e2) * (H * W2) + s2) % (H * W2))) = _
    rw [encDiv _ hs2, encMod _ hs2]
  calc stackSpec w (H * W2)
        (fun b2 s2 e2 => (permuteSpatial (H * W2) σ x).data ((b2 * 512 + e2) * (H * W2) + s2))
        b p c
      = stackSpec w (H * W2)
        (fun b2 s2 e2 => x.data ((b2 * 512 + e2) * (H * W2) + permFn (H * W2) σ s2))
        b p c := by
        refine stackSpec_congr w (H * W2) _ _ b p c ?_ hp hc
        intro s2 e2 hs2 he2
        exact hPX s2 e2 hs2 he2
    _ = stackSpec w (H * W2)
        (fun b2 s2 e2 => x.data ((b2 * 512 + e2) * (H * W2) + s2)) b
        (permFn (H * W2) σ p) c :=
        stackSpec_tokenPerm w (H * W2) σ
          (fun b2 s2 e2 => x.data ((b2 * 512 + e2) * (H * W2) + s2)) b p c

theorem C6_witness : ∃ y yp, multiHeadsForward mwA xDemo = Except.ok y ∧
    multiHeadsForward mwA (permuteSpatial (1 * 1) (Equiv.refl (Fin (1 * 1))) xDemo) =
      Except.ok yp ∧
    yp.shape = y.shape ∧
    ∀ b c p, c < 512 → p < 1 * 1 →
      yp.data ((b * 512 + c) * (1 * 1) + p) =
        y.data ((b * 512 + c) * (1 * 1) + permFn (1 * 1) (Equiv.refl (Fin (1 * 1))) p) :=
  C6_stack_perm_equivariant 1 1 1 mwA (Equiv.refl (Fin (1 * 1))) xDemo Nat.one_pos rfl
